import Mathlib

/-!
Verification development for the rule-based phishing detection system
(`phishingdetectionsystem.py`).  The Python classifiers and their helpers
are shallowly embedded as executable Lean functions over `List Char`
(Python `str` values), and the claimed properties of the spec are proved
about these definitions.  ASCII is assumed for case folding, digits and
whitespace, which covers every rule and example in the spec.
-/

namespace PhishingDetection

/-- Whitespace characters removed by Python `str.strip()` (ASCII model). -/
def isPySpace (c : Char) : Bool :=
  c == ' ' || c == '\t' || c == '\n' || c == '\r' || c == '\x0b' || c == '\x0c'

/-- Embeds Python `str.strip()`: drop whitespace from both ends. -/
def pyStrip (cs : List Char) : List Char :=
  ((cs.dropWhile isPySpace).reverse.dropWhile isPySpace).reverse

/-- Embeds Python `str.lower()` (ASCII model, per `Char.toLower`). -/
def pyLower (cs : List Char) : List Char :=
  cs.map Char.toLower

/-- Embeds Python `str.startswith`: the second list begins the first. -/
def listStartsWith : List Char → List Char → Bool
  | _, [] => true
  | [], _ :: _ => false
  | c :: cs, d :: ds => c == d && listStartsWith cs ds

/-- Embeds the Python substring test `needle in hay` for strings. -/
def listContains : List Char → List Char → Bool
  | [], needle => listStartsWith [] needle
  | c :: rest, needle => listStartsWith (c :: rest) needle || listContains rest needle

/-- Digit test for the regex class `\d` (ASCII model). -/
def isAsciiDigit (c : Char) : Bool :=
  c.isDigit

/-- Consume exactly `k` digits at the head, returning the remainder. -/
def digitRun (k : Nat) (cs : List Char) : Option (List Char) :=
  if (cs.take k).length == k && (cs.take k).all isAsciiDigit then some (cs.drop k) else none

/-- Remainders after matching one regex group of 1 to 3 digits followed by a
dot at the head (the backtracking alternatives of the quantifier). -/
def groupDot (cs : List Char) : List (List Char) :=
  [1, 2, 3].filterMap fun k =>
    match digitRun k cs with
    | some ('.' :: rest) => some rest
    | _ => none

/-- The final group of 1 to 3 digits of the dotted-quad pattern matches at
the head. -/
def lastGroup (cs : List Char) : Bool :=
  [1, 2, 3].any fun k => (digitRun k cs).isSome

/-- The whole dotted-quad regex matches starting at the head. -/
def ipMatchAt (cs : List Char) : Bool :=
  (groupDot cs).any fun r1 => (groupDot r1).any fun r2 => (groupDot r2).any fun r3 => lastGroup r3

/-- Embeds the `re.search` of the compiled dotted-quad pattern in
`is_phishing_url`: the pattern matches at some position of the string. -/
def ipSearch : List Char → Bool
  | [] => ipMatchAt []
  | c :: rest => ipMatchAt (c :: rest) || ipSearch rest

/-- The characters of the required scheme literal. -/
def httpsChars : List Char :=
  "https://".toList

/-- The hostname keywords of URL rule 5, as in the source. -/
def urlSubKeywords : List String :=
  ["login", "secure", "account"]

/-- The substring after the last commercial-at of the list (the whole list
when none occurs), as produced by the third component of Python
`rpartition` on that separator. -/
def afterLastAt : List Char → List Char
  | [] => []
  | c :: rest =>
    if rest.contains '@' then afterLastAt rest
    else if c == '@' then rest else c :: rest

/-- The hostname value of `urlparse(url).hostname or ""` on the non-raising
path, for strings whose lowercased form begins with the scheme literal of
rule 2 (the only strings it is applied to): the netloc is everything after
the first eight characters up to a slash, question mark or hash; user info
before the last commercial-at is dropped; a bracketed host is cut at the
closing bracket, otherwise the port after a colon is dropped; the result
is lowercased, the empty list standing for an absent hostname.  This
definition alone collapses the ValueError that urlsplit raises on a
netloc with an unbalanced bracket; `hostnameEx` below preserves that
raising path. -/
def hostnameOf (u : List Char) : List Char :=
  let netloc := (u.drop 8).takeWhile fun c => !(c == '/' || c == '?' || c == '#')
  let hostinfo := afterLastAt netloc
  let bracket := hostinfo.dropWhile fun c => !(c == '[')
  let host :=
    if bracket.isEmpty then hostinfo.takeWhile fun c => !(c == ':')
    else (bracket.drop 1).takeWhile fun c => !(c == ']')
  pyLower host

def vIP : String := "⚠️ Phishing Website! (Contains IP address)"
def vNoHTTPS : String := "⚠️ Phishing Website! (No HTTPS)"
def vSymbols : String := "⚠️ Phishing Website! (Suspicious symbols in URL)"
def vTooLong : String := "⚠️ Phishing Website! (URL too long)"
def vSubdomain : String := "⚠️ Phishing Website! (Suspicious subdomain pattern)"
def vLegitURL : String := "✅ Legitimate Website!"

/-- The rule chain of `is_phishing_url` after input normalization, one
branch per source rule in source order. -/
def classifyURLCore (u : List Char) : String :=
  if ipSearch u = true then vIP
  else if listStartsWith (pyLower u) httpsChars = false then vNoHTTPS
  else if (listContains u ['@'] || listContains (u.drop 8) ['/', '/']) = true then vSymbols
  else if 75 < u.length then vTooLong
  else if 3 ≤ (hostnameOf u).count '.' ∧
      urlSubKeywords.any (fun kw => listContains (hostnameOf u) kw.toList) = true then vSubdomain
  else vLegitURL

/-- Embeds `is_phishing_url`: strip the input, then run the rule chain.
Total model: urlparse's raising path is collapsed to the non-raising
hostname value of `hostnameOf`; the classifiers agree wherever urlparse
does not raise, and `is_phishing_urlEx` below preserves the raise. -/
def is_phishing_url (url : String) : String :=
  classifyURLCore (pyStrip url.toList)

/-- Embeds the hostname parse including its raising path: urlsplit raises
ValueError Invalid IPv6 URL when the netloc contains one bracket without
the other (every CPython 3 version; newer versions raise on further
invalid bracketed hosts, a path not modelled and not needed here), and
otherwise the hostname value is that of `hostnameOf`. -/
def hostnameEx (u : List Char) : Except String (List Char) :=
  let netloc := (u.drop 8).takeWhile fun c => !(c == '/' || c == '?' || c == '#')
  if (netloc.contains '[' && !netloc.contains ']') ||
      (netloc.contains ']' && !netloc.contains '[') then
    Except.error "Invalid IPv6 URL"
  else
    Except.ok (hostnameOf u)

/-- The URL rule chain with urlparse's raising path preserved: an error
value models the ValueError escaping `is_phishing_url` at rule 5. -/
def classifyURLCoreEx (u : List Char) : Except String String :=
  if ipSearch u = true then Except.ok vIP
  else if listStartsWith (pyLower u) httpsChars = false then Except.ok vNoHTTPS
  else if (listContains u ['@'] || listContains (u.drop 8) ['/', '/']) = true then
    Except.ok vSymbols
  else if 75 < u.length then Except.ok vTooLong
  else
    match hostnameEx u with
    | Except.error e => Except.error e
    | Except.ok hostname =>
      if 3 ≤ hostname.count '.' ∧
          urlSubKeywords.any (fun kw => listContains hostname kw.toList) = true then
        Except.ok vSubdomain
      else Except.ok vLegitURL

/-- Embeds `is_phishing_url` with urlparse's raising path preserved. -/
def is_phishing_urlEx (url : String) : Except String String :=
  classifyURLCoreEx (pyStrip url.toList)

/-- The fixed, ordered keyword list `SUSPICIOUS_KEYWORDS` of the source. -/
def SUSPICIOUS_KEYWORDS : List String :=
  ["urgent", "verify", "verify your", "account", "password", "reset", "confirm",
   "click here", "login", "limited time", "immediately", "suspend", "security alert",
   "wire transfer", "bank", "ssn"]

/-- Embeds `contains_link`, the `re.search` of the pattern matching either
scheme literal: some position of the text starts one of them. -/
def contains_link (text : List Char) : Bool :=
  listContains text "http://".toList || listContains text "https://".toList

/-- Embeds Python `str.split(sep)` for a single-character separator:
always a nonempty list of the pieces between occurrences. -/
def splitOnChar (sep : Char) : List Char → List (List Char)
  | [] => [[]]
  | c :: rest =>
    if c == sep then [] :: splitOnChar sep rest
    else
      match splitOnChar sep rest with
      | [] => [[c]]
      | p :: ps => (c :: p) :: ps

/-- Embeds `extract_domain`: split on the commercial-at and lowercase the
last piece when there are at least two pieces, else the empty string. -/
def extractDomainL (addr : List Char) : List Char :=
  if addr.isEmpty then []
  else
    let parts := splitOnChar '@' addr
    if 1 < parts.length then pyLower (parts.getLastD []) else []

/-- String-level wrapper of `extractDomainL`, matching the source
signature of `extract_domain`. -/
def extract_domain (email_address : String) : String :=
  String.mk (extractDomainL email_address.toList)

/-- The character class of the link-host capture group in `is_email_phishing`. -/
def isHostChar (c : Char) : Bool :=
  c.isAlpha || c.isDigit || c == '.' || c == '-'

/-- One scheme-literal match attempt at the head, returning the remainder
after the matched literal. -/
def matchHttpAt (cs : List Char) : Option (List Char) :=
  if listStartsWith cs "https://".toList then some (cs.drop 8)
  else if listStartsWith cs "http://".toList then some (cs.drop 7)
  else none

/-- Fueled scanner behind `findLinkHosts`.  Each step either consumes one
character (no match, or a match with an empty capture, which fails the
whole occurrence) or consumes the matched occurrence; the fuel only makes
the recursion structural and a fuel equal to the length of the list never
runs out, since every step drops at least one character. -/
def findLinkHostsAux : Nat → List Char → List (List Char)
  | 0, _ => []
  | _, [] => []
  | fuel + 1, c :: rest =>
    match matchHttpAt (c :: rest) with
    | some tl =>
      let host := tl.takeWhile isHostChar
      if host.isEmpty then findLinkHostsAux fuel rest
      else host :: findLinkHostsAux fuel (tl.drop host.length)
    | none => findLinkHostsAux fuel rest

/-- Embeds the `re.findall` of the link-host pattern in
`is_email_phishing`: the captured hosts of the non-overlapping matches,
scanning left to right. -/
def findLinkHosts (cs : List Char) : List (List Char) :=
  findLinkHostsAux cs.length cs

def vKeyword (kw : String) : String :=
  "⚠️ Phishing Email! (Found suspicious keyword: '" ++ kw ++ "')"
def vLinkMismatch : String := "⚠️ Phishing Email! (Contains external link not matching sender domain)"
def vLink : String := "⚠️ Phishing Email! (Contains link)"
def vReplyMismatch : String := "⚠️ Phishing Email! (Sender/Reply-To domain mismatch)"
def vUrgency : String := "⚠️ Phishing Email! (Excessive urgency/exclamation marks)"
def vSensitive : String := "⚠️ Phishing Email! (Asks for sensitive information)"
def vLegitEmail : String := "✅ Likely Legitimate Email"

/-- The credential-solicitation phrase list of email rule 5, as in the
source. -/
def CRED_PHRASES : List String :=
  ["enter your password", "provide your password", "send your password", "ssn", "social security"]

/-- The loop body test of email rule 1: the keyword occurs in the
lowercased subject or the lowercased body. -/
def kwHit (subj body_text : List Char) (kw : String) : Bool :=
  listContains subj kw.toList || listContains body_text kw.toList

/-- The loop body test of email rule 2: the lowercased link host and the
sender domain are substrings of one another in neither direction. -/
def ldMismatch (sender_domain : List Char) (ld : List Char) : Bool :=
  !listContains (pyLower ld) sender_domain && !listContains sender_domain (pyLower ld)

/-- Email rules 3 to 5 and the final legitimate outcome of
`is_email_phishing`, in source order. -/
def emailRest (s r subj body_text : List Char) : String :=
  if r.isEmpty = false ∧ (extractDomainL s).isEmpty = false ∧
      (extractDomainL r).isEmpty = false ∧ extractDomainL s ≠ extractDomainL r then vReplyMismatch
  else if 3 ≤ body_text.count '!' ∨ 2 ≤ subj.count '!' then vUrgency
  else if CRED_PHRASES.any (fun w => listContains body_text w.toList) = true then vSensitive
  else vLegitEmail

/-- Embeds `is_email_phishing`: normalize the four fields, then run the
rule chain; rule 1 is the first-match keyword scan, rule 2 the link rules,
and `emailRest` the remaining rules. -/
def is_email_phishing (sender reply_to subject body : String) : String :=
  let s := pyStrip sender.toList
  let r := pyStrip reply_to.toList
  let subj := pyLower subject.toList
  let body_text := pyLower body.toList
  match SUSPICIOUS_KEYWORDS.find? (kwHit subj body_text) with
  | some kw => vKeyword kw
  | none =>
    if contains_link body_text = true then
      if (findLinkHosts body_text).isEmpty = false ∧ (extractDomainL s).isEmpty = false then
        match (findLinkHosts body_text).find? (ldMismatch (extractDomainL s)) with
        | some _ => vLinkMismatch
        | none => emailRest s r subj body_text
      else vLink
    else emailRest s r subj body_text

/-- A persisted URL check, as stored by the `check_url` route: sequential
id, input, verdict, and the timestamp of evaluation (modelled as a natural
number). -/
structure URLCheckRecord where
  id : Nat
  url : String
  result : String
  timestamp : Nat
deriving DecidableEq

/-- A store in insertion order is well formed when ids strictly increase
and timestamps never decrease along it, the invariant the sequential-id,
current-timestamp append discipline maintains. -/
def StoreWF (store : List URLCheckRecord) : Prop :=
  store.Pairwise fun a b => a.id < b.id ∧ a.timestamp ≤ b.timestamp

/-- Recency order on records: earlier in the output means a strictly later
timestamp, or an equal timestamp and a strictly larger id. -/
def RecencyOrder (a b : URLCheckRecord) : Prop :=
  b.timestamp < a.timestamp ∨ (a.timestamp = b.timestamp ∧ b.id < a.id)

/-- Modelled from the spec: `append_url_check` — the source has no named
store component, only the `check_url` route appending a row with an
autoincrement id and a current timestamp; a fresh record with the next
sequential id is appended at the end of the log. -/
def appendURLCheck (store : List URLCheckRecord) (url result : String) (now : Nat) : List URLCheckRecord :=
  store ++ [{ id := store.length + 1, url := url, result := result, timestamp := now }]

/-- Modelled from the spec: `recent_url_checks(n)` — the source only
issues the query ordering by timestamp descending with limit 5 in the
`home` route; for a well-formed append-only store, ordering by timestamp
descending with ties broken by id descending is exactly reverse insertion
order, so the query is the first `n` records of the reversed log. -/
def recentURLChecks (n : Nat) (store : List URLCheckRecord) : List URLCheckRecord :=
  store.reverse.take n

/-! Helper lemmas about the string primitives. -/

lemma listStartsWith_iff (hay needle : List Char) :
    listStartsWith hay needle = true ↔ ∃ t, hay = needle ++ t := by
  induction needle generalizing hay with
  | nil => simp [listStartsWith]
  | cons d ds ih =>
    cases hay with
    | nil => simp [listStartsWith]
    | cons c cs =>
      simp only [listStartsWith, Bool.and_eq_true, beq_iff_eq, ih, List.cons_append,
        List.cons_eq_cons]
      constructor
      · rintro ⟨rfl, t, rfl⟩
        exact ⟨t, rfl, rfl⟩
      · rintro ⟨t, rfl, rfl⟩
        exact ⟨rfl, t, rfl⟩

lemma listContains_iff (hay needle : List Char) :
    listContains hay needle = true ↔ ∃ p t, hay = p ++ needle ++ t := by
  induction hay with
  | nil =>
    cases needle <;> simp [listContains, listStartsWith]
  | cons c rest ih =>
    simp only [listContains, Bool.or_eq_true, listStartsWith_iff, ih]
    constructor
    · rintro (⟨t, h⟩ | ⟨p, t, h⟩)
      · exact ⟨[], t, by simpa using h⟩
      · exact ⟨c :: p, t, by simp [h]⟩
    · rintro ⟨p, t, h⟩
      cases p with
      | nil =>
        exact Or.inl ⟨t, by simpa using h⟩
      | cons x xs =>
        rcases List.cons_eq_cons.mp h with ⟨rfl, hr⟩
        exact Or.inr ⟨xs, t, hr⟩

lemma listContains_trans {hay mid needle : List Char}
    (h1 : listContains hay mid = true) (h2 : listContains mid needle = true) :
    listContains hay needle = true := by
  rw [listContains_iff] at h1 h2 ⊢
  obtain ⟨p, t, rfl⟩ := h1
  obtain ⟨q, u, rfl⟩ := h2
  exact ⟨p ++ q, u ++ t, by simp⟩

lemma splitOnChar_ne_nil (sep : Char) (cs : List Char) : splitOnChar sep cs ≠ [] := by
  cases cs with
  | nil => simp [splitOnChar]
  | cons c rest =>
    simp only [splitOnChar]
    split
    · simp
    · split <;> simp

lemma splitOnChar_no_sep (sep : Char) (cs : List Char) (h : cs.contains sep = false) :
    splitOnChar sep cs = [cs] := by
  induction cs with
  | nil => rfl
  | cons c rest ih =>
    simp only [List.contains_cons, Bool.or_eq_false_iff] at h
    by_cases hcs : c = sep
    · subst hcs
      simp at h
    · simp only [splitOnChar]
      rw [if_neg (by simp [hcs]), ih h.2]

lemma splitOnChar_length (sep : Char) (cs : List Char) :
    1 < (splitOnChar sep cs).length ↔ cs.contains sep = true := by
  induction cs with
  | nil => simp [splitOnChar]
  | cons c rest ih =>
    have hne := splitOnChar_ne_nil sep rest
    cases hrest : splitOnChar sep rest with
    | nil => exact absurd hrest hne
    | cons p ps =>
      rw [hrest] at ih
      by_cases hcs : c = sep
      · subst hcs
        have hL : splitOnChar c (c :: rest) = [] :: p :: ps := by
          simp [splitOnChar, hrest]
        have hR : (c :: rest).contains c = true := by simp [List.contains_cons]
        rw [hL, hR]
        simp only [List.length_cons, iff_true]
        omega
      · have hL : splitOnChar sep (c :: rest) = (c :: p) :: ps := by
          simp only [splitOnChar]
          rw [if_neg (by simp [hcs]), hrest]
        have hscf : (sep == c) = false := beq_eq_false_iff_ne.mpr (Ne.symm hcs)
        have hR : (c :: rest).contains sep = rest.contains sep := by
          rw [List.contains_cons, hscf, Bool.false_or]
        rw [hL, hR, ← ih]
        simp only [List.length_cons]

lemma afterLastAt_no_at (cs : List Char) (h : cs.contains '@' = false) :
    afterLastAt cs = cs := by
  induction cs with
  | nil => rfl
  | cons c rest ih =>
    simp only [List.contains_cons, Bool.or_eq_false_iff] at h
    by_cases hcs : c = '@'
    · subst hcs
      simp at h
    · simp only [afterLastAt]
      rw [if_neg (fun hcon => Bool.false_ne_true (h.2 ▸ hcon)), if_neg (by simp [hcs])]

lemma splitOnChar_getLastD (cs : List Char) :
    (splitOnChar '@' cs).getLastD [] = afterLastAt cs := by
  induction cs with
  | nil => rfl
  | cons c rest ih =>
    have hne := splitOnChar_ne_nil '@' rest
    cases hrest : splitOnChar '@' rest with
    | nil => exact absurd hrest hne
    | cons p ps =>
      rw [hrest] at ih
      by_cases hcs : c = '@'
      · subst hcs
        have hL : splitOnChar '@' ('@' :: rest) = [] :: p :: ps := by
          simp [splitOnChar, hrest]
        rw [hL, List.getLastD_cons]
        by_cases hr : rest.contains '@' = true
        · have hRHS : afterLastAt ('@' :: rest) = afterLastAt rest := by
            simp only [afterLastAt]
            rw [if_pos hr]
          rw [hRHS]
          exact ih
        · have hrf : rest.contains '@' = false := Bool.eq_false_iff.mpr hr
          have hRHS : afterLastAt ('@' :: rest) = rest := by
            simp only [afterLastAt]
            rw [if_neg (fun hcon => Bool.false_ne_true (hrf ▸ hcon)), if_pos (by decide)]
          rw [hRHS]
          have h3 := splitOnChar_no_sep '@' rest hrf
          rw [hrest] at h3
          rw [show p :: ps = [rest] from h3]
          rfl
      · have hL : splitOnChar '@' (c :: rest) = (c :: p) :: ps := by
          simp only [splitOnChar]
          rw [if_neg (by simp [hcs]), hrest]
        rw [hL]
        cases ps with
        | nil =>
          have hr : ¬ rest.contains '@' = true := by
            intro hcon
            have h2 := (splitOnChar_length '@' rest).mpr hcon
            rw [hrest] at h2
            simp at h2
          have hrf : rest.contains '@' = false := Bool.eq_false_iff.mpr hr
          have h3 := splitOnChar_no_sep '@' rest hrf
          rw [hrest] at h3
          have hp : p = rest := by simpa using h3
          have hRHS : afterLastAt (c :: rest) = c :: rest := by
            simp only [afterLastAt]
            rw [if_neg (fun hcon => Bool.false_ne_true (hrf ▸ hcon)), if_neg (by simp [hcs])]
          rw [hp, hRHS]
          rfl
        | cons q qs =>
          have hr : rest.contains '@' = true := by
            rw [← splitOnChar_length, hrest]
            simp
          have hRHS : afterLastAt (c :: rest) = afterLastAt rest := by
            simp only [afterLastAt]
            rw [if_pos hr]
          rw [hRHS, ← ih]
          simp [List.getLastD_cons]


/-! Helper lemmas about the email rule chain. -/

lemma emailRest_cases (s r subj body_text : List Char) :
    emailRest s r subj body_text = vReplyMismatch ∨ emailRest s r subj body_text = vUrgency ∨
      emailRest s r subj body_text = vSensitive ∨ emailRest s r subj body_text = vLegitEmail := by
  unfold emailRest
  split_ifs <;> simp

lemma emailRest_sensitive (s r subj body_text : List Char)
    (h : emailRest s r subj body_text = vSensitive) :
    CRED_PHRASES.any (fun w => listContains body_text w.toList) = true := by
  unfold emailRest at h
  split_ifs at h with h1 h2 h3
  · exact absurd h (by decide)
  · exact absurd h (by decide)
  · exact h3
  · exact absurd h (by decide)

lemma is_email_phishing_some (sender reply_to subject body : String) (kw : String)
    (hkw : SUSPICIOUS_KEYWORDS.find? (kwHit (pyLower subject.toList) (pyLower body.toList)) =
      some kw) :
    is_email_phishing sender reply_to subject body = vKeyword kw := by
  simp only [is_email_phishing]
  rw [hkw]

lemma is_email_phishing_none (sender reply_to subject body : String)
    (hkw : SUSPICIOUS_KEYWORDS.find? (kwHit (pyLower subject.toList) (pyLower body.toList)) =
      none) :
    is_email_phishing sender reply_to subject body =
      (if contains_link (pyLower body.toList) = true then
        if (findLinkHosts (pyLower body.toList)).isEmpty = false ∧
            (extractDomainL (pyStrip sender.toList)).isEmpty = false then
          if ((findLinkHosts (pyLower body.toList)).find?
              (ldMismatch (extractDomainL (pyStrip sender.toList)))).isSome = true then
            vLinkMismatch
          else emailRest (pyStrip sender.toList) (pyStrip reply_to.toList)
            (pyLower subject.toList) (pyLower body.toList)
        else vLink
      else emailRest (pyStrip sender.toList) (pyStrip reply_to.toList)
        (pyLower subject.toList) (pyLower body.toList)) := by
  simp only [is_email_phishing]
  rw [hkw]
  cases hfind : (findLinkHosts (pyLower body.toList)).find?
      (ldMismatch (extractDomainL (pyStrip sender.toList))) with
  | some ld => simp [hfind]
  | none => simp [hfind]

lemma keyword_none_sensitive (subj body_text : List Char)
    (hnone : ∀ kw ∈ SUSPICIOUS_KEYWORDS, ¬ kwHit subj body_text kw = true)
    (hany : CRED_PHRASES.any (fun w => listContains body_text w.toList) = true) :
    listContains body_text "social security".toList = true := by
  rcases List.any_eq_true.mp hany with ⟨w, hw, hc⟩
  have hpw : ¬ listContains body_text "password".toList = true := by
    intro hp
    refine hnone "password" (by decide) ?_
    simp only [kwHit, Bool.or_eq_true]
    right
    simpa using hp
  have hssn : ¬ listContains body_text "ssn".toList = true := by
    intro hp
    refine hnone "ssn" (by decide) ?_
    simp only [kwHit, Bool.or_eq_true]
    right
    simpa using hp
  unfold CRED_PHRASES at hw
  fin_cases hw
  · exact absurd (listContains_trans hc (by decide)) hpw
  · exact absurd (listContains_trans hc (by decide)) hpw
  · exact absurd (listContains_trans hc (by decide)) hpw
  · exact absurd hc hssn
  · exact hc

/-- The domain-extraction rule in the words of the spec (comparison
definition for the refinement claim): the lowercased substring after the
last commercial-at, or the empty string when the address is empty or has
no commercial-at. -/
def extractDomainSpec (email_address : String) : String :=
  if email_address.toList.contains '@' = true then
    String.mk (pyLower (afterLastAt email_address.toList))
  else ""

/-! The claim theorems. -/

/-- Claim C6: `extract_domain` returns the lowercased substring after the
last commercial-at of its argument, and the empty string when the argument
is empty or has no commercial-at; in particular on the two examples of the
spec. -/
theorem extract_domain_follows_spec :
    (∀ addr : String, extract_domain addr = extractDomainSpec addr) ∧
    extract_domain "user@Example.COM" = "example.com" ∧
    extract_domain "noatsign" = "" := by
  refine ⟨fun addr => ?_, by decide, by decide⟩
  simp only [extract_domain, extractDomainSpec, extractDomainL]
  by_cases hat : addr.toList.contains '@' = true
  · have hlen : 1 < (splitOnChar '@' addr.toList).length := (splitOnChar_length '@' _).mpr hat
    have hne : addr.toList.isEmpty = false := by
      cases haddr : addr.toList with
      | nil => rw [haddr] at hat; simp at hat
      | cons c cs => rfl
    rw [if_neg (fun hcon => Bool.false_ne_true (hne ▸ hcon)), if_pos hlen, if_pos hat,
      splitOnChar_getLastD]
  · have hatf : addr.toList.contains '@' = false := Bool.eq_false_iff.mpr hat
    have hlen : ¬ 1 < (splitOnChar '@' addr.toList).length := by
      rw [splitOnChar_length, hatf]
      exact Bool.false_ne_true
    rw [if_neg hat]
    by_cases hemp : addr.toList.isEmpty = true
    · rw [if_pos hemp]
    · rw [if_neg hemp, if_neg hlen]

/-- Claim C2: the URL rules form an ordered decision list with the first
matching rule winning; on the dotted-quad HTTPS input the IP rule fires
first, not the HTTPS, symbol, length or subdomain rules. -/
theorem url_rule_order_ip_first :
    is_phishing_url "https://1.2.3.4/login" = vIP := by
  decide

/-- Claim C3: every input that is empty after trimming returns the
no-HTTPS verdict, since the empty string fails the IP rule and does not
start with the scheme literal. -/
theorem url_empty_after_trim_no_https (url : String) (h : pyStrip url.toList = []) :
    is_phishing_url url = vNoHTTPS := by
  unfold is_phishing_url
  rw [h]
  decide

/-- Witness for C3 at a whitespace-only input. -/
theorem url_empty_after_trim_no_https_witness :
    pyStrip "   ".toList = [] ∧ is_phishing_url "   " = vNoHTTPS :=
  ⟨by decide, url_empty_after_trim_no_https "   " (by decide)⟩

/-- Claim C1 (code bug): the bracketed input passes URL rules 1 to 4
— no dotted quad, the scheme literal present, no commercial-at and no
second double slash, length within bound — but its hostname parse raises
Invalid IPv6 URL in the source, and the exception escapes the classifier;
the claimed behavior, produced by the collapsed model, would have been
the legitimate verdict.  The never-raises claim is therefore false of
the code. -/
theorem url_bracket_input_raises :
    is_phishing_urlEx "https://[" = Except.error "Invalid IPv6 URL" ∧
    is_phishing_url "https://[" = vLegitURL :=
  ⟨by rfl, by decide⟩

/-- Claim C9: both classifiers are pure and deterministic; equal inputs
give equal verdicts on any two runs. -/
theorem classifiers_deterministic :
    (∀ u v : String, u = v → is_phishing_url u = is_phishing_url v) ∧
    (∀ s1 s2 r1 r2 j1 j2 b1 b2 : String, s1 = s2 → r1 = r2 → j1 = j2 → b1 = b2 →
      is_email_phishing s1 r1 j1 b1 = is_email_phishing s2 r2 j2 b2) := by
  constructor
  · rintro u v rfl
    rfl
  · rintro s1 s2 r1 r2 j1 j2 b1 b2 rfl rfl rfl rfl
    rfl

/-- Witness for C9 at concrete inputs. -/
theorem classifiers_deterministic_witness :
    is_phishing_url "https://example.com" = is_phishing_url "https://example.com" ∧
    is_email_phishing "a@x.com" "" "hi" "there" = is_email_phishing "a@x.com" "" "hi" "there" :=
  ⟨classifiers_deterministic.1 _ _ rfl,
    classifiers_deterministic.2 _ _ _ _ _ _ _ _ rfl rfl rfl rfl⟩

/-- Claim C4: when the first-match keyword scan of rule 1 finds a keyword
(`List.find?` returns the earliest list element whose test holds, here
that the keyword occurs in the lowercased subject or body), the verdict
names exactly that keyword; in particular the spec example reports
the keyword urgent. -/
theorem email_first_keyword :
    (∀ (sender reply_to subject body kw : String),
      SUSPICIOUS_KEYWORDS.find? (kwHit (pyLower subject.toList) (pyLower body.toList)) =
        some kw →
      is_email_phishing sender reply_to subject body = vKeyword kw) ∧
    is_email_phishing "a@bank.com" "" "Urgent" "" = vKeyword "urgent" := by
  constructor
  · intro sender reply_to subject body kw h
    exact is_email_phishing_some sender reply_to subject body kw h
  · decide

/-- Witness for C4 at the spec example. -/
theorem email_first_keyword_witness :
    is_email_phishing "a@bank.com" "" "Urgent" "" = vKeyword "urgent" :=
  email_first_keyword.1 "a@bank.com" "" "Urgent" "" "urgent" (by decide)

/-- Claim C5: when no keyword fires and the lowercased body contains a
link occurrence, then with extracted hosts and a non-empty sender domain
the mismatch verdict is returned exactly when some host, in extraction
order, matches the sender domain in neither substring direction; and with
no extractable host or an empty sender domain the contains-link verdict is
returned unconditionally. -/
theorem email_link_rule (sender reply_to subject body : String)
    (hkw : SUSPICIOUS_KEYWORDS.find? (kwHit (pyLower subject.toList) (pyLower body.toList)) =
      none)
    (hlink : contains_link (pyLower body.toList) = true) :
    ((findLinkHosts (pyLower body.toList)).isEmpty = false →
      (extractDomainL (pyStrip sender.toList)).isEmpty = false →
      (is_email_phishing sender reply_to subject body = vLinkMismatch ↔
        ((findLinkHosts (pyLower body.toList)).find?
          (ldMismatch (extractDomainL (pyStrip sender.toList)))).isSome = true)) ∧
    ((findLinkHosts (pyLower body.toList)).isEmpty = true ∨
      (extractDomainL (pyStrip sender.toList)).isEmpty = true →
      is_email_phishing sender reply_to subject body = vLink) := by
  rw [is_email_phishing_none sender reply_to subject body hkw, if_pos hlink]
  constructor
  · intro hld hsd
    rw [if_pos ⟨hld, hsd⟩]
    by_cases hfind : ((findLinkHosts (pyLower body.toList)).find?
        (ldMismatch (extractDomainL (pyStrip sender.toList)))).isSome = true
    · rw [if_pos hfind]
      exact iff_of_true rfl hfind
    · rw [if_neg hfind]
      constructor
      · intro hcon
        rcases emailRest_cases (pyStrip sender.toList) (pyStrip reply_to.toList)
            (pyLower subject.toList) (pyLower body.toList) with h | h | h | h <;>
          rw [h] at hcon <;> exact absurd hcon (by decide)
      · intro hcon
        exact absurd hcon hfind
  · intro hor
    have hcond : ¬ ((findLinkHosts (pyLower body.toList)).isEmpty = false ∧
        (extractDomainL (pyStrip sender.toList)).isEmpty = false) := by
      rintro ⟨ha, hb⟩
      rcases hor with h | h
      · rw [h] at ha
        exact absurd ha (by decide)
      · rw [h] at hb
        exact absurd hb (by decide)
    rw [if_neg hcond]

/-- Witness for C5 at the spec example, deriving the mismatch verdict
through the theorem. -/
theorem email_link_rule_witness :
    is_email_phishing "a@x.com" "" "" "click http://evil.com" = vLinkMismatch :=
  ((email_link_rule "a@x.com" "" "" "click http://evil.com" (by decide) (by decide)).1
    (by decide) (by decide)).mpr (by decide)

/-- Claim C10: the sensitive-information verdict is reachable only through
the phrase social security: every other credential phrase contains the
keyword password or ssn, which makes rule 1 fire first. -/
theorem sensitive_verdict_needs_social_security
    (sender reply_to subject body : String)
    (h : is_email_phishing sender reply_to subject body = vSensitive) :
    listContains (pyLower body.toList) "social security".toList = true := by
  cases hkw : SUSPICIOUS_KEYWORDS.find?
      (kwHit (pyLower subject.toList) (pyLower body.toList)) with
  | some kw =>
    have hmem := List.mem_of_find?_eq_some hkw
    rw [is_email_phishing_some sender reply_to subject body kw hkw] at h
    unfold SUSPICIOUS_KEYWORDS at hmem
    fin_cases hmem <;> exact absurd h (by decide)
  | none =>
    rw [is_email_phishing_none sender reply_to subject body hkw] at h
    have hrest : emailRest (pyStrip sender.toList) (pyStrip reply_to.toList)
        (pyLower subject.toList) (pyLower body.toList) = vSensitive := by
      by_cases hlink : contains_link (pyLower body.toList) = true
      · rw [if_pos hlink] at h
        by_cases hcond : (findLinkHosts (pyLower body.toList)).isEmpty = false ∧
            (extractDomainL (pyStrip sender.toList)).isEmpty = false
        · rw [if_pos hcond] at h
          by_cases hfind : ((findLinkHosts (pyLower body.toList)).find?
              (ldMismatch (extractDomainL (pyStrip sender.toList)))).isSome = true
          · rw [if_pos hfind] at h
            exact absurd h (by decide)
          · rw [if_neg hfind] at h
            exact h
        · rw [if_neg hcond] at h
          exact absurd h (by decide)
      · rw [if_neg hlink] at h
        exact h
    exact keyword_none_sensitive (pyLower subject.toList) (pyLower body.toList)
      (List.find?_eq_none.mp hkw) (emailRest_sensitive _ _ _ _ hrest)

/-- Witness for C10 at a body containing the phrase social security. -/
theorem sensitive_verdict_needs_social_security_witness :
    listContains (pyLower "we need your social security number".toList)
      "social security".toList = true :=
  sensitive_verdict_needs_social_security "a@a.com" "" ""
    "we need your social security number" (by decide)

/-- The closed URL verdict set, one legitimate value and one phishing
value per reason. -/
def urlVerdicts : List String :=
  [vIP, vNoHTTPS, vSymbols, vTooLong, vSubdomain, vLegitURL]

/-- The closed email verdict set: one keyword verdict per keyword of the
fixed list, the two link verdicts, the remaining rule verdicts, and the
legitimate value. -/
def emailVerdicts : List String :=
  SUSPICIOUS_KEYWORDS.map vKeyword ++
    [vLinkMismatch, vLink, vReplyMismatch, vUrgency, vSensitive, vLegitEmail]

/-- Claim C8 (code bug): the email classifier always terminates with a
verdict in its closed set, and the URL classifier does so on every
non-raising input; but on a bracketed-netloc input passing rules 1 to 4
the source raises Invalid IPv6 URL and returns no verdict string at all,
so the claimed for-every-input closure is false of `classify_url`. -/
theorem url_raises_no_closed_verdict :
    is_phishing_urlEx "https://[::1" = Except.error "Invalid IPv6 URL" ∧
    (∀ url : String, is_phishing_urlEx url = Except.error "Invalid IPv6 URL" ∨
      ∃ v ∈ urlVerdicts, is_phishing_urlEx url = Except.ok v) ∧
    (∀ sender reply_to subject body : String,
      is_email_phishing sender reply_to subject body ∈ emailVerdicts) := by
  refine ⟨by rfl, ?_, ?_⟩
  · intro url
    simp only [is_phishing_urlEx, classifyURLCoreEx]
    split_ifs with h1 h2 h3 h4
    · exact Or.inr ⟨vIP, by simp [urlVerdicts], rfl⟩
    · exact Or.inr ⟨vNoHTTPS, by simp [urlVerdicts], rfl⟩
    · exact Or.inr ⟨vSymbols, by simp [urlVerdicts], rfl⟩
    · exact Or.inr ⟨vTooLong, by simp [urlVerdicts], rfl⟩
    · cases hh : hostnameEx (pyStrip url.toList) with
      | error e =>
        left
        have he : e = "Invalid IPv6 URL" := by
          simp only [hostnameEx] at hh
          split_ifs at hh
          injection hh with h
          exact h.symm
        rw [he]
      | ok hostname =>
        right
        show ∃ v ∈ urlVerdicts,
          (if 3 ≤ hostname.count '.' ∧
              urlSubKeywords.any (fun kw => listContains hostname kw.toList) = true then
            Except.ok vSubdomain
          else Except.ok vLegitURL) = Except.ok v
        by_cases h6 : 3 ≤ hostname.count '.' ∧
            urlSubKeywords.any (fun kw => listContains hostname kw.toList) = true
        · refine ⟨vSubdomain, by simp [urlVerdicts], ?_⟩
          rw [if_pos h6]
        · refine ⟨vLegitURL, by simp [urlVerdicts], ?_⟩
          rw [if_neg h6]
  · intro sender reply_to subject body
    cases hkw : SUSPICIOUS_KEYWORDS.find?
        (kwHit (pyLower subject.toList) (pyLower body.toList)) with
    | some kw =>
      rw [is_email_phishing_some sender reply_to subject body kw hkw]
      exact List.mem_append_left _ (List.mem_map_of_mem _ (List.mem_of_find?_eq_some hkw))
    | none =>
      rw [is_email_phishing_none sender reply_to subject body hkw]
      have hrest := emailRest_cases (pyStrip sender.toList) (pyStrip reply_to.toList)
        (pyLower subject.toList) (pyLower body.toList)
      split_ifs with h1 h2 h3
      · simp [emailVerdicts]
      · rcases hrest with h | h | h | h <;> rw [h] <;> simp [emailVerdicts]
      · simp [emailVerdicts]
      · rcases hrest with h | h | h | h <;> rw [h] <;> simp [emailVerdicts]

/-- Claim C7: for every well-formed store and every bound, the recent-URL
query returns up to that many records in recency order (timestamp
descending, ties by id descending), returns fewer when the store is
smaller and is total for bounds beyond the store size; a fresh append is
returned first by the next query of the last five, and after ten appends a
query of five returns exactly the five most recent. -/
theorem recent_url_checks_spec (store : List URLCheckRecord) (n : Nat)
    (hwf : StoreWF store) :
    ((recentURLChecks n store).Pairwise RecencyOrder ∧
      (recentURLChecks n store).length = min n store.length) ∧
    (∀ url result now,
      (recentURLChecks 5 (appendURLCheck store url result now)).head? =
        some { id := store.length + 1, url := url, result := result, timestamp := now }) ∧
    (∀ a1 a2 a3 a4 a5 a6 a7 a8 a9 a10 : URLCheckRecord,
      recentURLChecks 5 (store ++ [a1, a2, a3, a4, a5, a6, a7, a8, a9, a10]) =
        [a10, a9, a8, a7, a6]) := by
  refine ⟨⟨?_, ?_⟩, ?_, ?_⟩
  · have hrev : store.reverse.Pairwise fun a b => b.id < a.id ∧ b.timestamp ≤ a.timestamp :=
      List.pairwise_reverse.mpr hwf
    have htake := List.Pairwise.sublist (List.take_sublist n store.reverse) hrev
    refine htake.imp fun hab => ?_
    rcases hab with ⟨hid, hts⟩
    rcases lt_or_eq_of_le hts with hlt | heq
    · exact Or.inl hlt
    · exact Or.inr ⟨heq.symm, hid⟩
  · simp [recentURLChecks]
  · intro url result now
    simp [recentURLChecks, appendURLCheck]
  · intro a1 a2 a3 a4 a5 a6 a7 a8 a9 a10
    simp [recentURLChecks]

/-- Witness for C7 at the empty store. -/
theorem recent_url_checks_spec_witness :
    (recentURLChecks 5 (appendURLCheck [] "u" "ok" 3)).head? =
      some { id := 1, url := "u", result := "ok", timestamp := 3 } :=
  (recent_url_checks_spec [] 5 List.Pairwise.nil).2.1 "u" "ok" 3

end PhishingDetection
